import Mathlib

/-!
Verification development for `dirusage.py` (a `du --max-depth`-style disk-usage
tree printer).  The filesystem is modelled as a finitely-branching tree of
directory entries; the two core routines `dir_size` (src/dirusage.py lines
77-84) and `tree` (lines 30-74), the human-size formatter `human` (lines
87-138) and the top-level control flow of `main` (lines 148-197) are embedded
shallowly below, and the stated properties are proved about the embeddings.
-/

namespace Dirusage

/-- A directory entry as seen by one `os.scandir` listing.

* `file name size` — a regular file of `size` bytes.
* `dir name children still` — a real directory whose own `scandir` listing is
  `children`.  The flag `still` records the outcome of the *later*
  `os.path.isdir(path)` re-check performed by `tree` at src/dirusage.py line 66
  just before recursing (it can be `false` when the entry stops being a
  directory between the moment its line is printed and that re-check; on a
  quiescent filesystem it is `true`).
* `symlinkDir name target still` — a symbolic link whose resolved target is a
  directory with listing `target` (cycles are not representable, which is
  harmless for the properties below).  `DirEntry.is_dir()` *without*
  `follow_symlinks=False` is true for it, and `scandir` on its path yields
  `target`.
* `other name` — anything else: symlink to a file, broken symlink, device,
  socket.  Both `is_dir(follow_symlinks=False)` and
  `is_file(follow_symlinks=False)` are false for it, and so is `is_dir()`. -/
inductive Entry where
  | file (name : String) (size : Nat)
  | dir (name : String) (children : List Entry) (still : Bool)
  | symlinkDir (name : String) (target : List Entry) (still : Bool)
  | other (name : String)

/-- `DirEntry.name`. -/
def entryName : Entry → String
  | .file n _ => n
  | .dir n _ _ => n
  | .symlinkDir n _ _ => n
  | .other n => n

/-- `x.is_dir()` with the default `follow_symlinks=True`, as used at
src/dirusage.py line 49: true for real directories and for symlinks whose
target is a directory. -/
def isDirFollow : Entry → Bool
  | .dir _ _ _ => true
  | .symlinkDir _ _ _ => true
  | _ => false

/-- `entry.is_dir(follow_symlinks=False)` as used at src/dirusage.py line 80:
true only for real directories. -/
def isDirNoFollow : Entry → Bool
  | .dir _ _ _ => true
  | _ => false

/-- `entry.is_file(follow_symlinks=False)` as used at src/dirusage.py line 82:
true only for regular files. -/
def isFileNoFollow : Entry → Bool
  | .file _ _ => true
  | _ => false

/-- `entry.stat().st_size` for a regular file (only ever taken on entries for
which `isFileNoFollow` holds, matching line 83). -/
def fileSize : Entry → Nat
  | .file _ sz => sz
  | _ => 0

/-- The listing produced by `os.scandir(path)` for the path of this entry.
`scandir` resolves a final symlink, so for `symlinkDir` it yields the target's
listing.  `tree` and `dir_size` only ever call it on entries for which
`is_dir()` holds. -/
def resolvedChildren : Entry → List Entry
  | .dir _ cs _ => cs
  | .symlinkDir _ t _ => t
  | _ => []

/-- The result of the `os.path.isdir(path)` re-check at src/dirusage.py line 66
(performed after the entry's line is printed, just before recursing).
`os.path.isdir` follows symlinks. -/
def stillIsdir : Entry → Bool
  | .dir _ _ b => b
  | .symlinkDir _ _ b => b
  | _ => false

/-- `dir_size` (src/dirusage.py lines 77-84) applied to a directory listing:

    size = 0
    for entry in scandir(path):
        if entry.is_dir(follow_symlinks=False):
            size += dir_size(entry.path)
        elif entry.is_file(follow_symlinks=False):
            size += entry.stat().st_size
    return size

Real subdirectories are aggregated recursively, regular files contribute their
byte length, and every other entry (symlink — even to a directory —, device,
socket) contributes nothing.  Symlinks are never followed here. -/
def dir_size : List Entry → Nat
  | [] => 0
  | .dir _ cs _ :: rest => dir_size cs + dir_size rest
  | .file _ sz :: rest => sz + dir_size rest
  | .symlinkDir _ _ _ :: rest => dir_size rest
  | .other _ :: rest => dir_size rest

/-- `HUMANRADIX = 1024.` (src/dirusage.py line 94).  Division by 1024 is exact
both in `ℚ` and in IEEE double precision (it only shifts the exponent), so the
rational model tracks the Python float computation exactly for every byte
count below `2^53`. -/
def HUMANRADIX : ℚ := 1024

/-- `UNITS = [B, KB, MB, GB, TB]` (src/dirusage.py line 93). -/
def UNITS : List String := ["B", "KB", "MB", "GB", "TB"]

/-- The unit-scaling loop of `human` (src/dirusage.py lines 126-133): walk the
units in order; stop at the first unit for which the running value is below
`HUMANRADIX`, otherwise divide by `HUMANRADIX` and continue; if every listed
unit is exhausted (the loop ran over `UNITS[:-1]`), the running value is
rendered with the last unit `UNITS[-1] = "TB"`. -/
def humanLoop : ℚ → List String → ℚ × String
  | size, [] => (size, UNITS.getLastD "")
  | size, u :: us => if size < HUMANRADIX then (size, u) else humanLoop (size / HUMANRADIX) us

/-- Round to the nearest integer, ties to the even integer — the rounding used
by Python's `'{:.1f}'.format` on a double (round-half-even). -/
def roundHalfEven (q : ℚ) : ℤ :=
  let f := Int.floor q
  if q - f < 1 / 2 then f
  else if 1 / 2 < q - f then f + 1
  else if f % 2 = 0 then f else f + 1

/-- `'{:.1f}'` applied to a nonnegative value: one decimal digit,
round-half-even.  (The program only ever formats nonnegative sizes; `Int.toNat`
clamps a negative argument, which no call site can produce.) -/
def fmtFixed1 (q : ℚ) : String :=
  let n := (roundHalfEven (q * 10)).toNat
  toString (n / 10) ++ "." ++ toString (n % 10)

/-- `'{:.0f}'` applied to a nonnegative value: round to an integer,
half-even. -/
def fmtFixed0 (q : ℚ) : String :=
  toString (roundHalfEven q).toNat

/-- Right-alignment to a field of width `w` with spaces, as in `'{: >5.1f}'` /
`'{: >2s}'` (Python pads but never truncates). -/
def padLeft (w : Nat) (s : String) : String :=
  String.mk (List.replicate (w - s.length) ' ') ++ s

/-- `prettify` (src/dirusage.py lines 141-145) with the global `pretty` flag
false (the default of the `-c` colorize flag): the message is returned
unchanged.  The
colorized variant only wraps the same string in terminal escape codes and is a
presentation concern outside this model. -/
def prettify (msg : String) : String := msg

/-- `human` (src/dirusage.py lines 87-138) with the process-wide `pretty` flag
false, so that the colour chosen on lines 101-123 never alters the string:
scale through the units, then format as `'{: >5.1f} {: >2s}'`, or
`'{: >3.0f} {: >2s}'` when `whole_numbers` is set. -/
def human (size : ℚ) (colorize : Bool) (whole_numbers : Bool) : String :=
  let vu := humanLoop size (UNITS.dropLast)
  let human_string :=
    if whole_numbers then padLeft 3 (fmtFixed0 vu.1) ++ " " ++ padLeft 2 vu.2
    else padLeft 5 (fmtFixed1 vu.1) ++ " " ++ padLeft 2 vu.2
  if colorize then prettify human_string else human_string

/-- The sort key of src/dirusage.py line 51: `dir_size(s.path)`, i.e. the
aggregate size of the entry's resolved listing. -/
def sizeKey (e : Entry) : Nat := dir_size (resolvedChildren e)

/-- `a` may come before `b` in the descending order of
`sorted(key=dir_size, reverse=True)`. -/
def rdesc (a b : Entry) : Prop := sizeKey b ≤ sizeKey a

instance : DecidableRel rdesc := fun _ _ => inferInstanceAs (Decidable (_ ≤ _))

instance : IsTotal Entry rdesc := ⟨fun a b => Nat.le_total (sizeKey b) (sizeKey a)⟩

instance : IsTrans Entry rdesc := ⟨fun _ _ _ h h' => Nat.le_trans h' h⟩

/-- Python's `sorted(..., key=lambda s: dir_size(s.path), reverse=True)`
(src/dirusage.py lines 50-52).  `sorted` is the stable descending sort by the
key; a stable sort for a total preorder is unique as a function, and
`List.insertionSort` (which inserts each earlier element before later equal
ones) is stable, so it is that function. -/
def sortBySizeDesc (l : List Entry) : List Entry := l.insertionSort rdesc

/-- Lines 49-52 of src/dirusage.py applied to one `scandir` listing: keep the
entries for which `x.is_dir()` holds (symlinks followed!), drop those whose
aggregate size is below `min_size * 1024**2`, and stable-sort the survivors by
aggregate size, descending.  This is exactly the ordered list of children that
receive an output line at this level. -/
def levelDirs (entries : List Entry) (min_size : Nat) : List Entry :=
  sortBySizeDesc ((entries.filter isDirFollow).filter
    (fun d => min_size * 1024 ^ 2 ≤ dir_size (resolvedChildren d)))

/-- One printed line of `tree`, annotated with the call depth at which it was
printed and the child entry it was printed for.  The actual output stream is
the projection onto `line`. -/
structure Emitted where
  depth : Nat
  entry : Entry
  line : String

/-- `pre_padding = '           '` — eleven spaces (src/dirusage.py line 45). -/
def prePadding : String := "           "

/-- The eighteen-space block appended to `padding` once the call depth exceeds
`start_depth + 1` (src/dirusage.py lines 46-47). -/
def padBlock : String := "                  "

/-- Python's `s[:-1]`: drop the final character (empty result stays empty). -/
def dropLast1 (s : String) : String := s.dropRight 1

mutual

/-- The recursive renderer `tree` (src/dirusage.py lines 30-74), returning the
sequence of printed lines (annotated, see `Emitted`) instead of writing them.

The path argument of the Python function is replaced by the `scandir` listing
of that path together with `depth = dir.count(os.sep)`; since every child path
is `dir + os.sep + f.name` and entry names contain no separator, the depth of
a recursive call is always the parent's depth plus one, which the embedding
threads directly.  `max_depth` is the `int` CLI value on the first call (the
`None` guard of line 42 is unreachable from `main`, which always passes an
`int`) and the already-absolutised bound on recursive calls; `min_size` is the
megabyte threshold (modelled as a natural number); `start_depth?` is `None`
exactly on the first call.  The dead parameter `isLast` of the source (always
overwritten at line 58 before use) is omitted. -/
def treeA (entries : List Entry) (depth : Nat) (max_depth : Nat) (min_size : Nat)
    (padding : String) (isFirst : Bool) (start_depth? : Option Nat) : List Emitted :=
  let start_depth := start_depth?.getD depth
  let max_depth' := if isFirst then depth + max_depth else max_depth
  if max_depth' ≤ depth then []
  else
    let padding' := if start_depth + 1 < depth then padding ++ padBlock else padding
    let dirs := levelDirs entries min_size
    treeLoop dirs 0 dirs.length depth max_depth' min_size padding' isFirst start_depth
termination_by (sizeOf entries, 1)
decreasing_by
  have key : sizeOf (levelDirs entries min_size) ≤ sizeOf entries := by
    have hperm : ∀ {l₁ l₂ : List Entry}, l₁.Perm l₂ → sizeOf l₁ = sizeOf l₂ := by
      intro l₁ l₂ h
      induction h with
      | nil => rfl
      | cons a _ ih => simp [ih]
      | swap a b l => simp; omega
      | trans _ _ ih₁ ih₂ => omega
    have hfil : ∀ (p : Entry → Bool) (l : List Entry), sizeOf (l.filter p) ≤ sizeOf l := by
      intro p l
      induction l with
      | nil => simp
      | cons a as ih => simp only [List.filter_cons]; split <;> simp <;> omega
    have h1 := hperm (List.perm_insertionSort rdesc
      ((entries.filter isDirFollow).filter
        (fun d => min_size * 1024 ^ 2 ≤ dir_size (resolvedChildren d))))
    have h2 := hfil (fun d => decide (min_size * 1024 ^ 2 ≤ dir_size (resolvedChildren d)))
      (entries.filter isDirFollow)
    have h3 := hfil isDirFollow entries
    simp only [levelDirs, sortBySizeDesc]
    omega
  rcases Nat.lt_or_ge (sizeOf (levelDirs entries min_size)) (sizeOf entries) with h' | h'
  · exact Prod.Lex.left _ _ h'
  · have heq : sizeOf (levelDirs entries min_size) = sizeOf entries := Nat.le_antisymm key h'
    rw [heq]
    exact Prod.Lex.right _ Nat.zero_lt_one

/-- The `for i, f in enumerate(dirs)` loop of `tree` (src/dirusage.py lines
53-73), with `i` the current index and `n = len(dirs)`.  `count` of the source
always equals `i + 1`, so the `count == len(dirs)` test of line 67 appears as
`i + 1 == n` and the `isLast` test of line 58 as `i == n - 1`, exactly as in
the source.  Each iteration prints one line for `f` (top-level format on the
first call, glyph format otherwise), then recurses into `f`'s resolved listing
if `isdir` still holds for its recomposed path. -/
def treeLoop (l : List Entry) (i n depth max_depth min_size : Nat)
    (padding : String) (isFirst : Bool) (start_depth : Nat) : List Emitted :=
  match l with
  | [] => []
  | f :: rest =>
    let isLast := i == n - 1
    let line :=
      if isFirst then
        " " ++ human (dir_size (resolvedChildren f) : Nat) true false ++ "  " ++
          prettify (entryName f)
      else if isLast then
        prePadding ++ dropLast1 padding ++ "└── " ++ "[ " ++
          human (dir_size (resolvedChildren f) : Nat) true false ++ " ]  " ++ entryName f
      else
        prePadding ++ dropLast1 padding ++ "├── " ++ "[ " ++
          human (dir_size (resolvedChildren f) : Nat) true false ++ " ]  " ++ entryName f
    let recur :=
      if stillIsdir f then
        if i + 1 == n then
          treeA (resolvedChildren f) (depth + 1) max_depth min_size
            (dropLast1 padding ++ " ") false (some start_depth)
        else if isFirst then
          treeA (resolvedChildren f) (depth + 1) max_depth min_size
            padding false (some start_depth)
        else
          treeA (resolvedChildren f) (depth + 1) max_depth min_size
            (dropLast1 padding ++ "│") false (some start_depth)
      else []
    ⟨depth, f, line⟩ ::
      (recur ++ treeLoop rest (i + 1) n depth max_depth min_size padding isFirst start_depth)
termination_by (sizeOf l, 0)
decreasing_by
  all_goals
    apply Prod.Lex.left
    have hle : sizeOf (resolvedChildren f) ≤ sizeOf f := by
      cases f <;> simp [resolvedChildren] <;> omega
    simp only [List.cons.sizeOf_spec]
    omega

end

/-- The call made by `main` (src/dirusage.py line 185):
`tree(dir=args.path, max_depth=args.max_depth, min_size=args.min_size)` with
the remaining parameters at their defaults (`padding=''`, `isFirst=True`,
`start_depth=None`).  `root_depth` is `args.path.count(os.sep)`. -/
def treeTop (entries : List Entry) (root_depth : Nat) (max_depth : Nat)
    (min_size : Nat) : List Emitted :=
  treeA entries root_depth max_depth min_size "" true none

/-- The plain stream of lines printed by `tree`. -/
def tree (entries : List Entry) (root_depth : Nat) (max_depth : Nat)
    (min_size : Nat) : List String :=
  (treeTop entries root_depth max_depth min_size).map Emitted.line

/-- Index a list from a given starting index — `enumerate(dirs)` of
src/dirusage.py line 55 is `enumFrom 0 dirs`. -/
def enumFrom {α : Type} (i : Nat) : List α → List (Nat × α)
  | [] => []
  | a :: as => (i, a) :: enumFrom (i + 1) as

/-- A directory entry in a filesystem that may mutate between `scandir` and
the per-entry system calls of `dir_size`, used to examine the aggregator's
failure behaviour.

* `file` and `dir` behave as in `Entry` (symlinks and other special entries
  are irrelevant here and omitted: they cause no system call in `dir_size`).
* `fileGone name` — a regular file that disappears between the `scandir`
  enumeration and the `entry.stat()` call of line 83, which then raises
  `FileNotFoundError`.
* `dirDenied name` — a subdirectory on which the recursive
  `scandir(entry.path)` of the nested `dir_size` call raises
  `PermissionError`. -/
inductive FEntry where
  | file (name : String) (size : Nat)
  | fileGone (name : String)
  | dir (name : String) (children : List FEntry)
  | dirDenied (name : String)

/-- `dir_size` (src/dirusage.py lines 77-84) run over a mutating filesystem,
with Python exception propagation made explicit: the function body contains no
`try`/`except`, so the first `FileNotFoundError` or `PermissionError` raised
by a system call aborts the whole aggregation and propagates to the caller. -/
def dir_sizeE : List FEntry → Except String Nat
  | [] => Except.ok 0
  | .dir _ cs :: rest =>
    match dir_sizeE cs with
    | Except.error e => Except.error e
    | Except.ok s =>
      match dir_sizeE rest with
      | Except.error e => Except.error e
      | Except.ok r => Except.ok (s + r)
  | .dirDenied nm :: _ => Except.error ("PermissionError: " ++ nm)
  | .file _ sz :: rest =>
    match dir_sizeE rest with
    | Except.error e => Except.error e
    | Except.ok r => Except.ok (sz + r)
  | .fileGone nm :: _ => Except.error ("FileNotFoundError: " ++ nm)

/-- The fate of an exception escaping the traversal, per `main`
(src/dirusage.py lines 149 and 195-197): the whole body runs inside
`try: ... except Exception as e: print(e); return 1`, so an aggregation
that raises makes `main` return 1, and a completed one lets it return 0
(line 193). -/
def mainExitE (es : List FEntry) : Nat :=
  match dir_sizeE es with
  | Except.ok _ => 0
  | Except.error _ => 1

/-- How control leaves `main` (src/dirusage.py lines 148-197): either a normal
`return` with a code, or a `SystemExit` raised inside the body.  `SystemExit`
derives from `BaseException`, not `Exception`, so the handler of line 195 does
not catch it. -/
inductive PyOutcome where
  | ret (code : Nat)
  | systemExit (code : Nat)

/-- `argparse.ArgumentParser.error` prints a usage message and terminates via
`sys.exit(2)` — documented behaviour of the standard library: it raises
`SystemExit(2)` and never returns, so the `return 1` at src/dirusage.py
line 169 is unreachable. -/
def parserErrorCode : Nat := 2

/-- The control flow of `main` (src/dirusage.py lines 148-197) abstracted over
the two inputs that decide its exit behaviour: whether `isdir(args.path)`
holds (line 167), and whether the traversal plus summary body (lines 174-191)
completes or raises an `Exception`.  Argument parsing succeeded (a parse
failure would likewise be a `SystemExit(2)` from argparse, before line 167). -/
def mainOutcome (rootIsDir : Bool) (body : Except String Unit) : PyOutcome :=
  if !rootIsDir then PyOutcome.systemExit parserErrorCode
  else
    match body with
    | Except.ok _ => PyOutcome.ret 0
    | Except.error _ => PyOutcome.ret 1

/-- The process exit status of `exit(main())` (src/dirusage.py line 201): a
normal return exits with the returned code; an uncaught `SystemExit(c)`
terminates the interpreter with status `c`. -/
def processExitCode : PyOutcome → Nat
  | PyOutcome.ret c => c
  | PyOutcome.systemExit c => c

/-! ## Theorems -/

/-- C1: for every directory `D`, `dir_size(D)` equals the sum of the byte
lengths of the regular files directly in `D` plus the sum of `dir_size(C)`
over every immediate real subdirectory `C` of `D`, determined without
following symbolic links; every entry that is neither a regular file nor a
directory (symlinks — including symlinks to directories —, devices, sockets)
contributes zero, which is expressed by the two filtered sums exhausting
`dir_size`.  The equation holds unconditionally for every listing, matching
the unconditional, memoization-free recursive descent of the code. -/
theorem C1_dir_size_sum (es : List Entry) :
    dir_size es
      = ((es.filter isFileNoFollow).map fileSize).sum
        + ((es.filter isDirNoFollow).map (fun e => dir_size (resolvedChildren e))).sum := by
  induction es with
  | nil => simp [dir_size]
  | cons e rest ih =>
    cases e <;>
      simp [dir_size, isFileNoFollow, isDirNoFollow, fileSize, resolvedChildren, ih] <;>
      omega

/-- C6 counterexample: `dir_size` does *not* treat a vanished entry's
contribution as zero and continue.  On a listing whose first entry's `stat`
raises `FileNotFoundError` and whose second entry is a healthy 7-byte file,
the aggregation aborts with the exception instead of returning 7. -/
theorem C6_counterexample :
    dir_sizeE [FEntry.fileGone "f", FEntry.file "g" 7]
        = Except.error "FileNotFoundError: f"
      ∧ dir_sizeE [FEntry.fileGone "f", FEntry.file "g" 7] ≠ Except.ok 7 := by
  refine ⟨?_, ?_⟩ <;> simp [dir_sizeE]

/-- C6 amended: a `FileNotFoundError` from a raced `stat` or a
`PermissionError` from a denied subdirectory makes `dir_size` raise
immediately — the faulty entry's siblings are not processed and nothing is
substituted by zero.  The exception propagates out of the whole aggregation
and is caught only by the blanket handler in `main`, which prints it and
returns exit status 1, so the fault does surface to the user and aborts the
computation. -/
theorem C6_amended_propagation :
    (∀ (nm : String) (rest : List FEntry),
        dir_sizeE (FEntry.fileGone nm :: rest) = Except.error ("FileNotFoundError: " ++ nm))
    ∧ (∀ (nm : String) (rest : List FEntry),
        dir_sizeE (FEntry.dirDenied nm :: rest) = Except.error ("PermissionError: " ++ nm))
    ∧ (∀ (es : List FEntry) (msg : String),
        dir_sizeE es = Except.error msg → mainExitE es = 1) := by
  refine ⟨fun nm rest => ?_, fun nm rest => ?_, fun es msg h => ?_⟩
  · simp [dir_sizeE]
  · simp [dir_sizeE]
  · simp [mainExitE, h]

/-- C6 witness: the amended propagation law at a concrete input. -/
theorem C6_amended_witness :
    dir_sizeE [FEntry.fileGone "f"] = Except.error "FileNotFoundError: f"
      ∧ mainExitE [FEntry.fileGone "f"] = 1 := by
  have h : dir_sizeE [FEntry.fileGone "f"] = Except.error "FileNotFoundError: f" := by
    simpa using C6_amended_propagation.1 "f" []
  exact ⟨h, C6_amended_propagation.2.2 [FEntry.fileGone "f"] "FileNotFoundError: f" h⟩

/-- `tree` returns immediately when the (absolute) depth bound is reached:
recursive calls pass `isFirst = False`, so `max_depth` is not re-adjusted and
the guard of src/dirusage.py line 42 fires whenever `depth >= max_depth`. -/
theorem treeA_stop (entries : List Entry) (d m ms : Nat) (pad : String) (sd? : Option Nat)
    (h : m ≤ d) : treeA entries d m ms pad false sd? = [] := by
  rw [treeA]
  simp [h]

/-- Unfolding of a recursive (non-first) `tree` call whose depth guard
passes. -/
theorem treeA_unfold (entries : List Entry) (d m ms : Nat) (pad : String) (sd : Nat)
    (h : d < m) :
    treeA entries d m ms pad false (some sd) =
      treeLoop (levelDirs entries ms) 0 (levelDirs entries ms).length d m ms
        (if sd + 1 < d then pad ++ padBlock else pad) false sd := by
  rw [treeA]
  simp [Nat.not_le.mpr h]

/-- The top-level call with `max_depth = 0` prints nothing. -/
theorem treeTop_stop (entries : List Entry) (rd ms : Nat) :
    treeTop entries rd 0 ms = [] := by
  rw [treeTop, treeA]
  simp

/-- Unfolding of the top-level `tree` call for a positive requested depth:
`start_depth` becomes the root's own depth and `max_depth` is absolutised to
`root_depth + N` once and for all. -/
theorem treeTop_unfold (entries : List Entry) (rd N ms : Nat) (h : 1 ≤ N) :
    treeTop entries rd N ms =
      treeLoop (levelDirs entries ms) 0 (levelDirs entries ms).length rd (rd + N) ms
        "" true rd := by
  rw [treeTop, treeA]
  have h1 : ¬ (rd + N ≤ rd) := by omega
  have h2 : ¬ (rd + 1 < rd) := by omega
  simp [h1, h2]

/-- Depth bound for the loop body, parameterized by the corresponding bound
for the recursive calls one level deeper. -/
theorem treeLoop_depth_of (ms d m : Nat) (hdm : d < m)
    (IH : ∀ (entries' : List Entry) (pad' : String) (sd' : Nat) (r : Emitted),
        r ∈ treeA entries' (d + 1) m ms pad' false (some sd') →
          d + 1 ≤ r.depth ∧ r.depth < m) :
    ∀ (l : List Entry) (i n : Nat) (pad : String) (fi : Bool) (sd : Nat) (r : Emitted),
      r ∈ treeLoop l i n d m ms pad fi sd → d ≤ r.depth ∧ r.depth < m := by
  intro l
  induction l with
  | nil =>
    intro i n pad fi sd r hr
    rw [treeLoop] at hr
    cases hr
  | cons f rest ih =>
    intro i n pad fi sd r hr
    rw [treeLoop] at hr
    simp only [List.mem_cons, List.mem_append] at hr
    rcases hr with hr | hr | hr
    · subst hr
      exact ⟨Nat.le_refl d, hdm⟩
    · split at hr
      · split at hr
        · exact ⟨Nat.le_of_succ_le (IH _ _ _ _ hr).1, (IH _ _ _ _ hr).2⟩
        · split at hr
          · exact ⟨Nat.le_of_succ_le (IH _ _ _ _ hr).1, (IH _ _ _ _ hr).2⟩
          · exact ⟨Nat.le_of_succ_le (IH _ _ _ _ hr).1, (IH _ _ _ _ hr).2⟩
      · cases hr
    · exact ih _ _ _ _ _ _ hr

/-- Auxiliary induction on the remaining depth budget. -/
theorem treeA_depth_aux (ms : Nat) :
    ∀ (k : Nat) (entries : List Entry) (d m : Nat) (pad : String) (sd : Nat) (r : Emitted),
      m - d ≤ k → r ∈ treeA entries d m ms pad false (some sd) →
        d ≤ r.depth ∧ r.depth < m := by
  intro k
  induction k with
  | zero =>
    intro entries d m pad sd r hk hr
    have h : m ≤ d := by omega
    rw [treeA_stop entries d m ms pad _ h] at hr
    cases hr
  | succ k ih =>
    intro entries d m pad sd r hk hr
    by_cases hdm : m ≤ d
    · rw [treeA_stop entries d m ms pad _ hdm] at hr
      cases hr
    · push_neg at hdm
      rw [treeA_unfold entries d m ms pad sd hdm] at hr
      exact treeLoop_depth_of ms d m hdm
        (fun entries' pad' sd' r' hr' => ih entries' (d + 1) m pad' sd' r' (by omega) hr')
        _ _ _ _ _ _ r hr

/-- Every record produced by a recursive (non-first) `tree` call lies between
the call's depth (inclusive) and the absolute depth bound (exclusive). -/
theorem treeA_depth_bound (entries : List Entry) (d m ms : Nat) (pad : String) (sd : Nat)
    (r : Emitted) (hr : r ∈ treeA entries d m ms pad false (some sd)) :
    d ≤ r.depth ∧ r.depth < m :=
  treeA_depth_aux ms (m - d) entries d m pad sd r (Nat.le_refl _) hr

/-- Every record produced by the top-level call lies between `root_depth`
(inclusive) and `root_depth + N` (exclusive). -/
theorem treeTop_depth_bound (entries : List Entry) (rd N ms : Nat) (r : Emitted)
    (hr : r ∈ treeTop entries rd N ms) : rd ≤ r.depth ∧ r.depth < rd + N := by
  rcases Nat.eq_zero_or_pos N with h0 | hpos
  · subst h0
    rw [treeTop_stop] at hr
    cases hr
  · rw [treeTop_unfold entries rd N ms hpos] at hr
    exact treeLoop_depth_of ms rd (rd + N) (by omega)
      (fun entries' pad' sd' r' hr' =>
        treeA_depth_aux ms (rd + N - (rd + 1)) entries' (rd + 1) (rd + N) pad' sd' r'
          (Nat.le_refl _) hr')
      _ _ _ _ _ _ r hr

/-- The records contributed by the recursion step for one child all lie
strictly below the current depth. -/
theorem treeRecur_depth (ms d m : Nat) (f : Entry) (i n : Nat) (pad : String) (fi : Bool)
    (sd : Nat) (r : Emitted)
    (hr : r ∈ (if stillIsdir f then
          if i + 1 == n then
            treeA (resolvedChildren f) (d + 1) m ms (dropLast1 pad ++ " ") false (some sd)
          else if fi then
            treeA (resolvedChildren f) (d + 1) m ms pad false (some sd)
          else
            treeA (resolvedChildren f) (d + 1) m ms (dropLast1 pad ++ "│") false (some sd)
        else [])) : d + 1 ≤ r.depth ∧ r.depth < m := by
  split at hr
  · split at hr
    · exact treeA_depth_bound _ _ _ _ _ _ _ hr
    · split at hr
      · exact treeA_depth_bound _ _ _ _ _ _ _ hr
      · exact treeA_depth_bound _ _ _ _ _ _ _ hr
  · cases hr

/-- Filtering a loop's output to the records printed *at* the loop's own depth
recovers exactly the processed child list, in order: one line per child of
`levelDirs`, and nothing else at that depth. -/
theorem treeLoop_level_map (ms d m : Nat) :
    ∀ (l : List Entry) (i n : Nat) (pad : String) (fi : Bool) (sd : Nat),
      ((treeLoop l i n d m ms pad fi sd).filter (fun r => r.depth == d)).map Emitted.entry
        = l := by
  intro l
  induction l with
  | nil =>
    intro i n pad fi sd
    rw [treeLoop]
    rfl
  | cons f rest ih =>
    intro i n pad fi sd
    rw [treeLoop]
    simp only [List.filter_cons, List.filter_append, List.map_append]
    have hrec : (List.filter (fun r => r.depth == d)
        (if stillIsdir f then
          if i + 1 == n then
            treeA (resolvedChildren f) (d + 1) m ms (dropLast1 pad ++ " ") false (some sd)
          else if fi then
            treeA (resolvedChildren f) (d + 1) m ms pad false (some sd)
          else
            treeA (resolvedChildren f) (d + 1) m ms (dropLast1 pad ++ "│") false (some sd)
        else [])) = [] := by
      rw [List.filter_eq_nil_iff]
      intro r hr
      have h := treeRecur_depth ms d m f i n pad fi sd r hr
      simp only [beq_iff_eq]
      omega
    rw [hrec]
    simp only [beq_self_eq_true, if_pos]
    simp [ih]

/-- C4: `max_depth` is absolutised exactly once, at the top-level call, to
`start_depth + N` (see `treeTop_unfold`); every recursive call returns
immediately once its depth reaches or exceeds that absolute bound (first
conjunct); consequently every emitted line belongs to a call depth `< rd + N`,
i.e. to a directory at most `N` levels below the root — for every root depth
`rd`, so the bound is independent of how deeply the root path is nested
(second conjunct; the child printed at call depth `r.depth` lies
`r.depth - rd + 1 ≤ N` levels below the root). -/
theorem C4_depth_limit :
    (∀ (entries : List Entry) (d m ms : Nat) (pad : String) (sd? : Option Nat),
        m ≤ d → treeA entries d m ms pad false sd? = [])
    ∧ (∀ (entries : List Entry) (rd N ms : Nat) (r : Emitted),
        r ∈ treeTop entries rd N ms → rd ≤ r.depth ∧ r.depth + 1 ≤ rd + N) :=
  ⟨fun entries d m ms pad sd? h => treeA_stop entries d m ms pad sd? h,
   fun entries rd N ms r hr =>
     ⟨(treeTop_depth_bound entries rd N ms r hr).1,
      (treeTop_depth_bound entries rd N ms r hr).2⟩⟩

/-- The formatter on the zero byte count (needed to evaluate concrete render
outputs). -/
theorem human_zero_eval : human 0 true false = "  0.0  B" := by
  norm_num [human, humanLoop, UNITS, HUMANRADIX, fmtFixed1, roundHalfEven, padLeft, prettify]
  rfl

/-- C4 witness: the stop guard and the depth bound at concrete inputs — an
empty directory `a` rendered by a depth-1 top-level call produces one record,
at depth 0, i.e. exactly 1 level below the root. -/
theorem C4_depth_limit_witness :
    treeA [Entry.dir "a" [] true] 3 3 0 "" false (some 3) = []
    ∧ (⟨0, Entry.dir "a" [] true, "   0.0  B  a"⟩ : Emitted)
        ∈ treeTop [Entry.dir "a" [] true] 0 1 0
    ∧ 0 ≤ (⟨0, Entry.dir "a" [] true, "   0.0  B  a"⟩ : Emitted).depth
    ∧ (⟨0, Entry.dir "a" [] true, "   0.0  B  a"⟩ : Emitted).depth + 1 ≤ 0 + 1 := by
  have hmem : (⟨0, Entry.dir "a" [] true, "   0.0  B  a"⟩ : Emitted)
      ∈ treeTop [Entry.dir "a" [] true] 0 1 0 := by
    have heq : treeTop [Entry.dir "a" [] true] 0 1 0
        = [⟨0, Entry.dir "a" [] true, " " ++ human 0 true false ++ "  " ++ "a"⟩] := by
      simp [treeTop, treeA, treeLoop, levelDirs, sortBySizeDesc, rdesc, sizeKey,
        resolvedChildren, dir_size, isDirFollow, stillIsdir, entryName, prettify,
        List.insertionSort, List.orderedInsert]
    rw [heq, human_zero_eval]
    exact List.mem_singleton.mpr rfl
  exact ⟨C4_depth_limit.1 [Entry.dir "a" [] true] 3 3 0 "" (some 3) (Nat.le_refl 3),
    hmem, (C4_depth_limit.2 _ 0 1 0 _ hmem).1, (C4_depth_limit.2 _ 0 1 0 _ hmem).2⟩

/-- C7: when the supplied root path is not a directory, `main` calls
`parser.error`, which raises `SystemExit(2)`; `except Exception` does not
catch `SystemExit`, so the process exits with status **2**, not 1 (the
`return 1` after `parser.error` is unreachable).  For a valid root, the
process does exit 0 on a completed traversal and 1 on any caught error. -/
theorem C7_exit_codes :
    processExitCode (mainOutcome false (Except.ok ())) = 2
    ∧ processExitCode (mainOutcome false (Except.ok ())) ≠ 1
    ∧ (∀ body : Except String Unit,
        processExitCode (mainOutcome true body)
          = match body with
            | Except.ok _ => 0
            | Except.error _ => 1) := by
  refine ⟨rfl, by decide, fun body => ?_⟩
  cases body <;> rfl

/-- Membership in the filtered, sorted child list of one level: an entry is
rendered at a level exactly when it is in the listing, `is_dir()` holds for it
(symlinks to directories included), and its aggregate size meets the
`min_size * 1024**2` threshold. -/
theorem levelDirs_mem_iff (entries : List Entry) (ms : Nat) (e : Entry) :
    e ∈ levelDirs entries ms ↔
      e ∈ entries ∧ isDirFollow e = true ∧ ms * 1024 ^ 2 ≤ dir_size (resolvedChildren e) := by
  simp only [levelDirs, sortBySizeDesc, List.mem_insertionSort, List.mem_filter,
    decide_eq_true_eq, and_assoc]

/-- C2: a child receives an output line at a level iff it passes the
`is_dir()` test and its aggregate size is at least `minSize * 1024²` bytes
(first conjunct characterises the rendered set `levelDirs`; the second and
third show the lines printed at the level of any recursive call and of the
top-level call are exactly one per member of `levelDirs`, in order, so
below-threshold children receive no line there); the aggregator takes no
threshold parameter at all, and a directory child contributes its full
`dir_size` to the parent's aggregate unconditionally (fourth conjunct), so
filtered-out children still count towards every ancestor's size. -/
theorem C2_threshold_filter (entries : List Entry) (ms : Nat) :
    (∀ e, e ∈ levelDirs entries ms ↔
        e ∈ entries ∧ isDirFollow e = true ∧ ms * 1024 ^ 2 ≤ dir_size (resolvedChildren e))
    ∧ (∀ (d m : Nat) (pad : String) (sd : Nat), d < m →
        ((treeA entries d m ms pad false (some sd)).filter (fun r => r.depth == d)).map
            Emitted.entry = levelDirs entries ms)
    ∧ (∀ (rd N : Nat), 1 ≤ N →
        ((treeTop entries rd N ms).filter (fun r => r.depth == rd)).map Emitted.entry
          = levelDirs entries ms)
    ∧ (∀ (nm : String) (cs : List Entry) (b : Bool) (rest : List Entry),
        dir_size (Entry.dir nm cs b :: rest) = dir_size cs + dir_size rest) := by
  refine ⟨levelDirs_mem_iff entries ms, fun d m pad sd h => ?_, fun rd N h => ?_,
    fun nm cs b rest => ?_⟩
  · rw [treeA_unfold entries d m ms pad sd h]
    exact treeLoop_level_map ms d m _ _ _ _ _ _
  · rw [treeTop_unfold entries rd N ms h]
    exact treeLoop_level_map ms rd (rd + N) _ _ _ _ _ _
  · simp [dir_size]

/-- C2 witness: the level equations at concrete inputs (a recursive-call level
and a top-level call rooted at depth 5). -/
theorem C2_threshold_filter_witness :
    ((treeA [Entry.dir "a" [Entry.file "x" 10] true] 0 1 0 "" false (some 0)).filter
        (fun r => r.depth == 0)).map Emitted.entry
      = levelDirs [Entry.dir "a" [Entry.file "x" 10] true] 0
    ∧ ((treeTop [Entry.dir "a" [Entry.file "x" 10] true] 5 1 0).filter
        (fun r => r.depth == 5)).map Emitted.entry
      = levelDirs [Entry.dir "a" [Entry.file "x" 10] true] 0 :=
  ⟨(C2_threshold_filter [Entry.dir "a" [Entry.file "x" 10] true] 0).2.1 0 1 "" 0
      Nat.zero_lt_one,
   (C2_threshold_filter [Entry.dir "a" [Entry.file "x" 10] true] 0).2.2.1 5 1
      (Nat.le_refl 1)⟩

/-- C5 counterexample: symbolic links to directories are *not* opaque to the
renderer.  On a root whose only entry is a symlink `link` to a directory
containing a subdirectory `sub`, `tree` (depth 2, no threshold) prints a line
for `link` — sized through its target — and recurses into it, printing `sub`
as well; the claim said a symlink is never rendered and never recursed
into. -/
theorem C5_counterexample :
    (treeTop [Entry.symlinkDir "link" [Entry.dir "sub" [Entry.file "a" 2048] true] true]
        0 2 0).map (fun r => entryName r.entry) = ["link", "sub"] := by
  simp [treeTop, treeA, treeLoop, levelDirs, sortBySizeDesc, rdesc, sizeKey,
    resolvedChildren, dir_size, isDirFollow, stillIsdir, entryName, prettify,
    List.insertionSort, List.orderedInsert]

/-- C5 amended: only the *aggregator* treats symlinks as opaque — inside
`dir_size` a symlink (even to a directory) is never followed and contributes
zero (first conjunct).  The *renderer*, by contrast, enumerates children with
the link-following `is_dir()`, so a symlink to a directory that meets the size
threshold is rendered as a tree child (second conjunct), its displayed size is
`dir_size` of its resolved target (third conjunct), and the link-following
`isdir` re-check lets the renderer recurse into it (fourth conjunct). -/
theorem C5_amended :
    (∀ (nm : String) (t : List Entry) (b : Bool) (rest : List Entry),
        dir_size (Entry.symlinkDir nm t b :: rest) = dir_size rest)
    ∧ (∀ (entries : List Entry) (ms : Nat) (nm : String) (t : List Entry) (b : Bool),
        Entry.symlinkDir nm t b ∈ entries → ms * 1024 ^ 2 ≤ dir_size t →
          Entry.symlinkDir nm t b ∈ levelDirs entries ms)
    ∧ (∀ (nm : String) (t : List Entry) (b : Bool),
        resolvedChildren (Entry.symlinkDir nm t b) = t)
    ∧ (∀ (nm : String) (t : List Entry) (b : Bool),
        stillIsdir (Entry.symlinkDir nm t b) = b) := by
  refine ⟨fun nm t b rest => by simp [dir_size],
    fun entries ms nm t b hmem hsize => ?_,
    fun nm t b => rfl, fun nm t b => rfl⟩
  rw [levelDirs_mem_iff]
  exact ⟨hmem, rfl, by simpa [resolvedChildren] using hsize⟩

/-- C5 witness: the amended rendering law at a concrete input — a symlink to a
2 KiB directory is in the rendered set of its level. -/
theorem C5_amended_witness :
    Entry.symlinkDir "link" [Entry.file "a" 2048] true
      ∈ levelDirs [Entry.symlinkDir "link" [Entry.file "a" 2048] true] 0 :=
  C5_amended.2.1 [Entry.symlinkDir "link" [Entry.file "a" 2048] true] 0 "link"
    [Entry.file "a" 2048] true (List.mem_singleton.mpr rfl) (by simp [dir_size])

/-- Members of an enumerated list are members of the list. -/
theorem enumFrom_snd_mem {α : Type} :
    ∀ (i : Nat) (l : List α) (q : Nat × α), q ∈ enumFrom i l → q.2 ∈ l := by
  intro i l
  induction l generalizing i with
  | nil => intro q hq; cases hq
  | cons a as ih =>
    intro q hq
    rw [enumFrom] at hq
    rcases List.mem_cons.mp hq with h | h
    · subst h; exact List.mem_cons_self a as
    · exact List.mem_cons_of_mem a (ih (i + 1) q h)

/-- A `flatMap` whose blocks are all singletons is a `map`. -/
theorem flatMap_eq_map_of {α β : Type} (l : List α) (f : α → List β) (g : α → β)
    (h : ∀ a ∈ l, f a = [g a]) : l.flatMap f = l.map g := by
  induction l with
  | nil => rfl
  | cons a as ih =>
    rw [List.flatMap_cons, h a (List.mem_cons_self a as),
      ih (fun b hb => h b (List.mem_cons_of_mem a hb)), List.map_cons, List.singleton_append]

/-- The loop of a nested (non-first) `tree` call, written as one block per
enumerated child: each child `f` at position `i` among the `n` survivors gets
one line — glyph `└── ` exactly when `i == n - 1` (last by sort order), glyph
`├── ` otherwise — followed by the lines of the recursion into `f`, which is
entered only if the `isdir` re-check passes and whose padding receives a
final blank when `f` is last and the vertical bar `│` otherwise. -/
theorem treeLoop_flatMap (ms d m : Nat) :
    ∀ (l : List Entry) (i n : Nat) (pad : String) (sd : Nat),
      treeLoop l i n d m ms pad false sd =
        (enumFrom i l).flatMap (fun q =>
          ⟨d, q.2,
            prePadding ++ dropLast1 pad ++ (if q.1 == n - 1 then "└── " else "├── ") ++
              "[ " ++ human ((dir_size (resolvedChildren q.2) : Nat) : ℚ) true false ++
              " ]  " ++ entryName q.2⟩ ::
          (if stillIsdir q.2 then
            treeA (resolvedChildren q.2) (d + 1) m ms
              (dropLast1 pad ++ (if q.1 + 1 == n then " " else "│")) false (some sd)
          else [])) := by
  intro l
  induction l with
  | nil =>
    intro i n pad sd
    rw [treeLoop, enumFrom]
    rfl
  | cons f rest ih =>
    intro i n pad sd
    rw [treeLoop, enumFrom]
    simp only [List.flatMap_cons, ih, Bool.false_eq_true, if_false, List.cons_append]
    cases hn : (i + 1 == n) <;> by_cases hl : i = n - 1 <;>
      simp [hn, hl, String.append_assoc]

/-- Block form of a nested `tree` call whose depth guard passes: one block per
rendered child, each carrying the glyph choice and the recursion padding. -/
theorem treeA_blocks (entries : List Entry) (d m ms : Nat) (pad : String) (sd : Nat)
    (h : d < m) :
    treeA entries d m ms pad false (some sd) =
      (enumFrom 0 (levelDirs entries ms)).flatMap (fun q =>
        ⟨d, q.2,
          prePadding ++ dropLast1 (if sd + 1 < d then pad ++ padBlock else pad) ++
            (if q.1 == (levelDirs entries ms).length - 1 then "└── " else "├── ") ++
            "[ " ++ human ((dir_size (resolvedChildren q.2) : Nat) : ℚ) true false ++
            " ]  " ++ entryName q.2⟩ ::
        (if stillIsdir q.2 then
          treeA (resolvedChildren q.2) (d + 1) m ms
            (dropLast1 (if sd + 1 < d then pad ++ padBlock else pad) ++
              (if q.1 + 1 == (levelDirs entries ms).length then " " else "│"))
            false (some sd)
        else [])) := by
  rw [treeA_unfold entries d m ms pad sd h, treeLoop_flatMap]

/-- C8: on every nested (non-top-level) level, unfolding one `tree` call shows
each rendered child's branch glyph is `└── ` exactly when its index equals
`levelDirs.length - 1` — i.e. when it is the last, by sort order, of its
filtered siblings — and `├── ` otherwise; and the padding handed to the
recursion into that child ends in a blank space exactly for the last sibling
and in the vertical bar `│` for every non-last sibling. -/
theorem C8_branch_glyphs (entries : List Entry) (d m ms : Nat) (pad : String) (sd : Nat)
    (h : d < m) :
    treeA entries d m ms pad false (some sd) =
      (enumFrom 0 (levelDirs entries ms)).flatMap (fun q =>
        ⟨d, q.2,
          prePadding ++ dropLast1 (if sd + 1 < d then pad ++ padBlock else pad) ++
            (if q.1 == (levelDirs entries ms).length - 1 then "└── " else "├── ") ++
            "[ " ++ human ((dir_size (resolvedChildren q.2) : Nat) : ℚ) true false ++
            " ]  " ++ entryName q.2⟩ ::
        (if stillIsdir q.2 then
          treeA (resolvedChildren q.2) (d + 1) m ms
            (dropLast1 (if sd + 1 < d then pad ++ padBlock else pad) ++
              (if q.1 + 1 == (levelDirs entries ms).length then " " else "│"))
            false (some sd)
        else [])) :=
  treeA_blocks entries d m ms pad sd h

/-- C8 witness: the unfolding at a concrete input with two rendered
children. -/
theorem C8_branch_glyphs_witness :
    treeA [Entry.dir "a" [] true, Entry.dir "b" [] true] 0 1 0 "" false (some 0) =
      (enumFrom 0 (levelDirs [Entry.dir "a" [] true, Entry.dir "b" [] true] 0)).flatMap
        (fun q =>
          ⟨0, q.2,
            prePadding ++ dropLast1 (if 0 + 1 < 0 then "" ++ padBlock else "") ++
              (if q.1 == (levelDirs [Entry.dir "a" [] true, Entry.dir "b" [] true] 0).length - 1
                then "└── " else "├── ") ++
              "[ " ++ human ((dir_size (resolvedChildren q.2) : Nat) : ℚ) true false ++
              " ]  " ++ entryName q.2⟩ ::
          (if stillIsdir q.2 then
            treeA (resolvedChildren q.2) (0 + 1) 1 0
              (dropLast1 (if 0 + 1 < 0 then "" ++ padBlock else "") ++
                (if q.1 + 1 == (levelDirs [Entry.dir "a" [] true, Entry.dir "b" [] true] 0).length
                  then " " else "│"))
              false (some 0)
          else [])) :=
  C8_branch_glyphs [Entry.dir "a" [] true, Entry.dir "b" [] true] 0 1 0 "" 0 Nat.zero_lt_one

/-- C10: the renderer re-checks `isdir` on the recomposed child path after
printing the child's line and recurses only if it still holds (see the
per-child recursion guard in `treeA_blocks` / `treeLoop_flatMap`).  When
every rendered child fails the re-check — it stopped being a directory between
enumeration and recursion — each child still gets exactly its one printed
line and nothing else: no recursion, no error, the traversal completes
normally (in the source, `tree` then falls through to its `return 0`). -/
theorem C10_isdir_recheck (entries : List Entry) (d m ms : Nat) (pad : String) (sd : Nat)
    (h : d < m) (hstill : ∀ f ∈ levelDirs entries ms, stillIsdir f = false) :
    treeA entries d m ms pad false (some sd) =
      (enumFrom 0 (levelDirs entries ms)).map (fun q =>
        ⟨d, q.2,
          prePadding ++ dropLast1 (if sd + 1 < d then pad ++ padBlock else pad) ++
            (if q.1 == (levelDirs entries ms).length - 1 then "└── " else "├── ") ++
            "[ " ++ human ((dir_size (resolvedChildren q.2) : Nat) : ℚ) true false ++
            " ]  " ++ entryName q.2⟩) := by
  rw [treeA_blocks entries d m ms pad sd h]
  apply flatMap_eq_map_of
  intro q hq
  rw [hstill q.2 (enumFrom_snd_mem 0 (levelDirs entries ms) q hq)]
  rfl

/-- C10 witness: a directory `gone` that fails the `isdir` re-check (its
`still` flag is false) still gets its line — the renderer emits exactly the
one record and recurses nowhere, with no error. -/
theorem C10_isdir_recheck_witness :
    treeA [Entry.dir "gone" [Entry.file "x" 5] false] 0 2 0 "" false (some 0) =
      (enumFrom 0 (levelDirs [Entry.dir "gone" [Entry.file "x" 5] false] 0)).map (fun q =>
        ⟨0, q.2,
          prePadding ++ dropLast1 (if 0 + 1 < 0 then "" ++ padBlock else "") ++
            (if q.1 == (levelDirs [Entry.dir "gone" [Entry.file "x" 5] false] 0).length - 1
              then "└── " else "├── ") ++
            "[ " ++ human ((dir_size (resolvedChildren q.2) : Nat) : ℚ) true false ++
            " ]  " ++ entryName q.2⟩) := by
  apply C10_isdir_recheck [Entry.dir "gone" [Entry.file "x" 5] false] 0 2 0 "" 0
    Nat.zero_lt_two
  intro f hf
  simp [levelDirs, sortBySizeDesc, List.insertionSort, List.orderedInsert,
    isDirFollow, resolvedChildren, dir_size] at hf
  subst hf
  rfl

/-- Stability of one ordered insertion with respect to the descending size
key: restricting to any fixed key value `v`, inserting `a` prepends it when
its key is `v` (every element it jumped over has a strictly larger key) and
changes nothing else. -/
theorem filter_key_orderedInsert (v : Nat) (a : Entry) (l : List Entry) :
    (List.orderedInsert rdesc a l).filter (fun e => sizeKey e == v)
      = if sizeKey a == v then a :: l.filter (fun e => sizeKey e == v)
        else l.filter (fun e => sizeKey e == v) := by
  induction l with
  | nil => simp [List.orderedInsert, List.filter_cons]
  | cons b bs ih =>
    by_cases hr : rdesc a b
    · rw [List.orderedInsert, if_pos hr]
      rw [List.filter_cons]
    · rw [List.orderedInsert, if_neg hr]
      have hgt : sizeKey a < sizeKey b := by
        have := Nat.not_le.mp (fun hc => hr hc)
        exact this
      rw [List.filter_cons, List.filter_cons, ih]
      by_cases hpa : sizeKey a = v
      · have hpb : ¬ (sizeKey b = v) := by omega
        simp [hpa, hpb]
      · by_cases hpb : sizeKey b = v
        · simp [hpa, hpb]
        · simp [hpa, hpb]

/-- Stability of the whole sort with respect to the descending size key:
among entries of any fixed aggregate size, `sortBySizeDesc` preserves the
original enumeration order. -/
theorem filter_key_sortBySizeDesc (v : Nat) (l : List Entry) :
    (sortBySizeDesc l).filter (fun e => sizeKey e == v)
      = l.filter (fun e => sizeKey e == v) := by
  rw [sortBySizeDesc]
  induction l with
  | nil => rfl
  | cons a l ih =>
    rw [List.insertionSort, filter_key_orderedInsert, List.filter_cons]
    by_cases hpa : sizeKey a = v
    · simp [hpa, ih]
    · simp [hpa, ih]

/-- C3: at every rendered level the emission order is the order of
`levelDirs` (third conjunct, one line per member in order); that list is
pairwise non-increasing in aggregate size (first conjunct); and among siblings
of equal aggregate size it preserves the original filesystem enumeration order
— filtering both the sorted list and the unsorted filtered listing to any
fixed size `v` yields identical lists (second conjunct, stability). -/
theorem C3_sibling_order (entries : List Entry) (ms : Nat) :
    (levelDirs entries ms).Pairwise
        (fun a b => dir_size (resolvedChildren b) ≤ dir_size (resolvedChildren a))
    ∧ (∀ v : Nat, (levelDirs entries ms).filter
          (fun e => dir_size (resolvedChildren e) == v)
        = ((entries.filter isDirFollow).filter
            (fun e => ms * 1024 ^ 2 ≤ dir_size (resolvedChildren e))).filter
            (fun e => dir_size (resolvedChildren e) == v))
    ∧ (∀ (d m : Nat) (pad : String) (sd : Nat), d < m →
        ((treeA entries d m ms pad false (some sd)).filter (fun r => r.depth == d)).map
            Emitted.entry = levelDirs entries ms) := by
  refine ⟨List.sorted_insertionSort rdesc _, fun v => ?_, fun d m pad sd h => ?_⟩
  · exact filter_key_sortBySizeDesc v _
  · rw [treeA_unfold entries d m ms pad sd h]
    exact treeLoop_level_map ms d m _ _ _ _ _ _

/-- C3 witness: the level-order equation at a concrete input with two
equal-sized directories (whose original order must therefore be kept). -/
theorem C3_sibling_order_witness :
    ((treeA [Entry.dir "a" [] true, Entry.dir "b" [] true] 0 1 0 "" false (some 0)).filter
        (fun r => r.depth == 0)).map Emitted.entry
      = levelDirs [Entry.dir "a" [] true, Entry.dir "b" [] true] 0 :=
  (C3_sibling_order [Entry.dir "a" [] true, Entry.dir "b" [] true] 0).2.2 0 1 "" 0
    Nat.zero_lt_one

/-- C9: the formatter scales through B, KB, MB, GB, TB by successive division
by 1024, choosing the first unit at which the value is below 1024 and TB for
everything at or above `1024⁴ = 2^40`, with exact boundaries: byte counts
below `2^10` are shown in B, from `2^10` (inclusive) in KB, from `2^20` in MB,
from `2^30` in GB and from `2^40` in TB (conjuncts 1-5); the displayed string
is the scaled value formatted to one decimal place, right-aligned in five
columns, one space, and the unit label right-aligned in two columns
(conjunct 6, for either colorize flag — colour never alters the string). -/
theorem C9_human_units (size : Nat) (c : Bool) :
    (size < 1024 → humanLoop (size : ℚ) (UNITS.dropLast) = ((size : ℚ), "B"))
    ∧ (1024 ≤ size → size < 1024 ^ 2 →
        humanLoop (size : ℚ) (UNITS.dropLast) = ((size : ℚ) / 1024, "KB"))
    ∧ (1024 ^ 2 ≤ size → size < 1024 ^ 3 →
        humanLoop (size : ℚ) (UNITS.dropLast) = ((size : ℚ) / 1024 ^ 2, "MB"))
    ∧ (1024 ^ 3 ≤ size → size < 1024 ^ 4 →
        humanLoop (size : ℚ) (UNITS.dropLast) = ((size : ℚ) / 1024 ^ 3, "GB"))
    ∧ (1024 ^ 4 ≤ size →
        humanLoop (size : ℚ) (UNITS.dropLast) = ((size : ℚ) / 1024 ^ 4, "TB"))
    ∧ human (size : ℚ) c false =
        padLeft 5 (fmtFixed1 (humanLoop (size : ℚ) (UNITS.dropLast)).1) ++ " " ++
          padLeft 2 (humanLoop (size : ℚ) (UNITS.dropLast)).2 := by
  have hq : (0 : ℚ) < 1024 := by norm_num
  refine ⟨fun h1 => ?_, fun h1 h2 => ?_, fun h1 h2 => ?_, fun h1 h2 => ?_, fun h1 => ?_, ?_⟩
  · have c1 : (size : ℚ) < 1024 := by exact_mod_cast h1
    simp [UNITS, humanLoop, HUMANRADIX, c1]
  · have c1 : ¬ ((size : ℚ) < 1024) := by
      push_neg
      exact_mod_cast h1
    have c2 : (size : ℚ) / 1024 < 1024 := by
      rw [div_lt_iff₀ hq]
      exact_mod_cast h2
    simp [UNITS, humanLoop, HUMANRADIX, c1, c2]
  · have c1 : ¬ ((size : ℚ) < 1024) := by
      push_neg
      calc (1024 : ℚ) ≤ 1024 ^ 2 := by norm_num
        _ ≤ (size : ℚ) := by exact_mod_cast h1
    have c2 : ¬ ((size : ℚ) / 1024 < 1024) := by
      rw [not_lt, le_div_iff₀ hq]
      calc (1024 : ℚ) * 1024 = 1024 ^ 2 := by norm_num
        _ ≤ (size : ℚ) := by exact_mod_cast h1
    have c3 : (size : ℚ) / 1024 / 1024 < 1024 := by
      rw [div_div, div_lt_iff₀ (by norm_num : (0 : ℚ) < 1024 * 1024)]
      calc (size : ℚ) < ((1024 ^ 3 : Nat) : ℚ) := by exact_mod_cast h2
        _ = 1024 * (1024 * 1024) := by norm_num
    have hu : UNITS.dropLast = ["B", "KB", "MB", "GB"] := rfl
    rw [hu]
    simp only [humanLoop, HUMANRADIX]
    rw [if_neg c1, if_neg c2, if_pos c3]
    rw [div_div]
    norm_num
  · have c1 : ¬ ((size : ℚ) < 1024) := by
      push_neg
      calc (1024 : ℚ) ≤ 1024 ^ 3 := by norm_num
        _ ≤ (size : ℚ) := by exact_mod_cast h1
    have c2 : ¬ ((size : ℚ) / 1024 < 1024) := by
      rw [not_lt, le_div_iff₀ hq]
      calc (1024 : ℚ) * 1024 ≤ 1024 ^ 3 := by norm_num
        _ ≤ (size : ℚ) := by exact_mod_cast h1
    have c3 : ¬ ((size : ℚ) / 1024 / 1024 < 1024) := by
      rw [not_lt, div_div, le_div_iff₀ (by norm_num : (0 : ℚ) < 1024 * 1024)]
      calc (1024 : ℚ) * (1024 * 1024) = 1024 ^ 3 := by norm_num
        _ ≤ (size : ℚ) := by exact_mod_cast h1
    have c4 : (size : ℚ) / 1024 / 1024 / 1024 < 1024 := by
      rw [div_div, div_div, div_lt_iff₀ (by norm_num : (0 : ℚ) < 1024 * (1024 * 1024))]
      calc (size : ℚ) < ((1024 ^ 4 : Nat) : ℚ) := by exact_mod_cast h2
        _ = 1024 * (1024 * (1024 * 1024)) := by norm_num
    have hu : UNITS.dropLast = ["B", "KB", "MB", "GB"] := rfl
    rw [hu]
    simp only [humanLoop, HUMANRADIX]
    rw [if_neg c1, if_neg c2, if_neg c3, if_pos c4]
    rw [div_div, div_div]
    norm_num
  · have c1 : ¬ ((size : ℚ) < 1024) := by
      push_neg
      calc (1024 : ℚ) ≤ 1024 ^ 4 := by norm_num
        _ ≤ (size : ℚ) := by exact_mod_cast h1
    have c2 : ¬ ((size : ℚ) / 1024 < 1024) := by
      rw [not_lt, le_div_iff₀ hq]
      calc (1024 : ℚ) * 1024 ≤ 1024 ^ 4 := by norm_num
        _ ≤ (size : ℚ) := by exact_mod_cast h1
    have c3 : ¬ ((size : ℚ) / 1024 / 1024 < 1024) := by
      rw [not_lt, div_div, le_div_iff₀ (by norm_num : (0 : ℚ) < 1024 * 1024)]
      calc (1024 : ℚ) * (1024 * 1024) ≤ 1024 ^ 4 := by norm_num
        _ ≤ (size : ℚ) := by exact_mod_cast h1
    have c4 : ¬ ((size : ℚ) / 1024 / 1024 / 1024 < 1024) := by
      rw [not_lt, div_div, div_div,
        le_div_iff₀ (by norm_num : (0 : ℚ) < 1024 * (1024 * 1024))]
      calc (1024 : ℚ) * (1024 * (1024 * 1024)) = 1024 ^ 4 := by norm_num
        _ ≤ (size : ℚ) := by exact_mod_cast h1
    have hu : UNITS.dropLast = ["B", "KB", "MB", "GB"] := rfl
    rw [hu]
    simp only [humanLoop, HUMANRADIX]
    rw [if_neg c1, if_neg c2, if_neg c3, if_neg c4]
    rw [div_div, div_div, div_div]
    norm_num [UNITS]
  · cases c <;> simp [human, prettify]

/-- C9 witness: the MB range at its exact lower boundary `2^20 = 1048576`. -/
theorem C9_human_units_witness :
    1024 ^ 2 ≤ (2 ^ 20 : Nat) ∧ (2 ^ 20 : Nat) < 1024 ^ 3
    ∧ humanLoop (((2 ^ 20 : Nat) : Nat) : ℚ) (UNITS.dropLast)
        = ((((2 ^ 20 : Nat) : Nat) : ℚ) / 1024 ^ 2, "MB") :=
  ⟨by norm_num, by norm_num,
   (C9_human_units (2 ^ 20) false).2.2.1 (by norm_num) (by norm_num)⟩

end Dirusage
